import Mathlib

/-!
Verification development for `examples/minimal/create_48k_test_audio.py`.

The script synthesizes a one-second 440 Hz sine tone at 48 kHz, quantizes
each sample to a signed 16-bit integer via Python's `int()` cast
(truncation toward zero), wraps the samples in a minimal RIFF/WAVE header
and writes the bytes to a fixed path.

Modelling choices:
* Python floats are modelled by real numbers; `math.sin` by `Real.sin`.
* `int(x)` on a float is truncation toward zero (`truncR` below, `truncQ`
  on rationals).
* `struct.pack '<I'` / `'<H'` / `'<h'` raise `struct.error` on values
  outside the target range; they are modelled by `Option`-valued packers
  returning `none` exactly there.
* The produced byte string is a `List ℕ` of byte values; the whole run is
  the `Option (List ℕ)` value `wavData` (`none` = the script raises before
  writing).
-/

namespace CreateAudio

/-- Truncation toward zero on the rationals, modelling Python `int()`
applied to an exactly-representable value. -/
def truncQ (q : ℚ) : ℤ := if 0 ≤ q then ⌊q⌋ else ⌈q⌉

/-- Truncation toward zero on the reals, modelling Python `int()` applied
to a float, with floats modelled as reals. -/
noncomputable def truncR (x : ℝ) : ℤ := if 0 ≤ x then ⌊x⌋ else ⌈x⌉

/-- Compiled-in constant `sample_rate = 48000` of the script. -/
def sample_rate : ℕ := 48000

/-- Compiled-in constant `duration = 1.0` of the script. -/
def duration : ℚ := 1

/-- Compiled-in constant `frequency = 440` of the script. -/
def frequency : ℕ := 440

/-- Compiled-in constant `amplitude = 0.3` of the script. -/
def amplitude : ℚ := 3 / 10

/-- `num_samples = int(sample_rate * duration)` of the script, kept as an
integer: Python's value is negative for negative durations. -/
def numSamplesZ (sr : ℕ) (dur : ℚ) : ℤ := truncQ (sr * dur)

/-- Number of loop iterations of `range(num_samples)`: empty for a
non-positive `num_samples`. -/
def numSamples (sr : ℕ) (dur : ℚ) : ℕ := (numSamplesZ sr dur).toNat

/-- `t = i / sample_rate` of the script. -/
noncomputable def sampleTime (sr : ℕ) (i : ℕ) : ℝ := (i : ℝ) / (sr : ℝ)

/-- `value = amplitude * math.sin(2 * math.pi * frequency * t)` of the
script. -/
noncomputable def rawValue (sr freq : ℕ) (amp : ℚ) (i : ℕ) : ℝ :=
  (amp : ℝ) * Real.sin (2 * Real.pi * (freq : ℝ) * sampleTime sr i)

/-- `sample = int(value * 32767)` of the script. -/
noncomputable def sample (sr freq : ℕ) (amp : ℚ) (i : ℕ) : ℤ :=
  truncR (rawValue sr freq amp i * 32767)

/-- The list `samples` built by the generation loop of the script. -/
noncomputable def samples (sr freq : ℕ) (dur amp : ℚ) : List ℤ :=
  (List.range (numSamples sr dur)).map (sample sr freq amp)

/-- Little-endian byte serialization of an unsigned 16-bit value. -/
def u16le (v : ℕ) : List ℕ := [v % 256, v / 256 % 256]

/-- Little-endian byte serialization of an unsigned 32-bit value. -/
def u32le (v : ℕ) : List ℕ :=
  [v % 256, v / 256 % 256, v / 65536 % 256, v / 16777216 % 256]

/-- `struct.pack('<I', v)`: little-endian unsigned 32-bit, raising
(`none`) outside `[0, 2^32)`. -/
def packU32 (v : ℤ) : Option (List ℕ) :=
  if 0 ≤ v ∧ v < 4294967296 then some (u32le v.toNat) else none

/-- `struct.pack('<H', v)`: little-endian unsigned 16-bit, raising
(`none`) outside `[0, 2^16)`. -/
def packU16 (v : ℤ) : Option (List ℕ) :=
  if 0 ≤ v ∧ v < 65536 then some (u16le v.toNat) else none

/-- `struct.pack('<h', v)`: little-endian signed 16-bit (two's
complement), raising (`none`) outside `[-32768, 32767]`. -/
def packI16 (v : ℤ) : Option (List ℕ) :=
  if -32768 ≤ v ∧ v ≤ 32767 then some (u16le (v % 65536).toNat) else none

/-- Serialization of the sample list, `struct.pack('<h', sample)` for each
sample in order, concatenated. -/
def packAll : List ℤ → Option (List ℕ)
  | [] => some []
  | v :: vs => do
    let b ← packI16 v
    let rest ← packAll vs
    pure (b ++ rest)

/-- The 44-byte WAV header built by the script, with `data_size =
num_samples * 2` and `file_size = 36 + data_size`; byte literals are the
ASCII codes of "RIFF", "WAVE", "fmt " and "data". -/
def wavHeader (sr : ℕ) (ns : ℤ) : Option (List ℕ) := do
  let fileSizeB ← packU32 (36 + ns * 2)
  let chunkSizeB ← packU32 16
  let fmtB ← packU16 1
  let chanB ← packU16 1
  let srB ← packU32 (sr : ℤ)
  let byteRateB ← packU32 ((sr : ℤ) * 2)
  let blockAlignB ← packU16 2
  let bitsB ← packU16 16
  let dataSizeB ← packU32 (ns * 2)
  pure ([82, 73, 70, 70] ++ fileSizeB ++ [87, 65, 86, 69] ++
        [102, 109, 116, 32] ++ chunkSizeB ++ fmtB ++ chanB ++ srB ++
        byteRateB ++ blockAlignB ++ bitsB ++ [100, 97, 116, 97] ++
        dataSizeB)

/-- The full byte sequence `wav_data` assembled by the script: header
followed by the serialized samples; `none` when any `struct.pack` call
raises. -/
noncomputable def wavData (sr freq : ℕ) (dur amp : ℚ) : Option (List ℕ) := do
  let h ← wavHeader sr (numSamplesZ sr dur)
  let s ← packAll (samples sr freq dur amp)
  pure (h ++ s)

/-- The byte sequence produced by a run of `create_48k_test_audio` with
its compiled-in parameters. -/
noncomputable def create_48k_test_audio : Option (List ℕ) :=
  wavData sample_rate frequency duration amplitude

/-- A run of the program in an arbitrary environment: the script reads no
input and ignores its environment entirely. -/
noncomputable def runProgram {α : Type} (_ : α) : Option (List ℕ) :=
  create_48k_test_audio

/-- Little-endian decoding of the first two bytes of a list. -/
def decodeU16 (l : List ℕ) : ℕ := l.getD 0 0 + 256 * l.getD 1 0

/-- Little-endian decoding of the first four bytes of a list. -/
def decodeU32 (l : List ℕ) : ℕ :=
  l.getD 0 0 + 256 * l.getD 1 0 + 65536 * l.getD 2 0 + 16777216 * l.getD 3 0

/-- Filesystem state relevant to the final write: whether the parent
directory `debug-audio/` exists, whether it could be created, and whether
the target path is writable. -/
structure FileSystem where
  parentExists : Bool
  parentCreatable : Bool
  pathWritable : Bool

/-- Success of the write step `open('debug-audio/test-static.wav', 'wb')`:
opening with mode `'wb'` succeeds exactly when the parent directory
already exists and the path is writable; the script contains no
directory-creation call. -/
def writeSucceeds (fs : FileSystem) : Bool :=
  fs.parentExists && fs.pathWritable

/-- Write behaviour asserted by the specification (for comparison):
parent directories are created as needed, so the write succeeds whenever
the path is writable and the parent exists or can be created. -/
def claimedWriteSucceeds (fs : FileSystem) : Bool :=
  (fs.parentExists || fs.parentCreatable) && fs.pathWritable

/-! ### Helper lemmas -/

lemma truncQ_of_nonneg {q : ℚ} (h : 0 ≤ q) : truncQ q = ⌊q⌋ := by
  simp [truncQ, h]

lemma truncR_of_nonneg {x : ℝ} (h : 0 ≤ x) : truncR x = ⌊x⌋ := by
  simp [truncR, h]

lemma truncR_abs_le (x : ℝ) : |(truncR x : ℝ)| ≤ |x| := by
  unfold truncR
  by_cases h : 0 ≤ x
  · rw [if_pos h, abs_of_nonneg h, abs_of_nonneg]
    · exact Int.floor_le x
    · exact_mod_cast Int.floor_nonneg.2 h
  · push_neg at h
    rw [if_neg (not_le.2 h), abs_of_neg h, abs_of_nonpos]
    · simpa using Int.le_ceil x
    · have : ⌈x⌉ ≤ 0 := Int.ceil_le.2 (by exact_mod_cast h.le)
      exact_mod_cast this

lemma truncR_sub_abs_lt (x : ℝ) : |(truncR x : ℝ) - x| < 1 := by
  unfold truncR
  by_cases h : 0 ≤ x
  · rw [if_pos h, abs_sub_lt_iff]
    constructor
    · linarith [Int.floor_le x]
    · linarith [Int.lt_floor_add_one x]
  · push_neg at h
    rw [if_neg (not_le.2 h), abs_sub_lt_iff]
    constructor
    · linarith [Int.ceil_lt_add_one x]
    · linarith [Int.le_ceil x]

lemma abs_rawValue_le (sr freq : ℕ) (amp : ℚ) (i : ℕ) (h : 0 ≤ amp) :
    |rawValue sr freq amp i| ≤ (amp : ℝ) := by
  unfold rawValue
  rw [abs_mul]
  have h0 : (0 : ℝ) ≤ (amp : ℝ) := by exact_mod_cast h
  calc |(amp : ℝ)| * |Real.sin (2 * Real.pi * (freq : ℝ) * sampleTime sr i)|
      ≤ |(amp : ℝ)| * 1 :=
        mul_le_mul_of_nonneg_left (Real.abs_sin_le_one _) (abs_nonneg _)
    _ = (amp : ℝ) := by rw [mul_one, abs_of_nonneg h0]

lemma abs_sample_le (sr freq : ℕ) (amp : ℚ) (i : ℕ) (h : 0 ≤ amp) :
    |(sample sr freq amp i : ℝ)| ≤ (amp : ℝ) * 32767 := by
  unfold sample
  calc |(truncR (rawValue sr freq amp i * 32767) : ℝ)|
      ≤ |rawValue sr freq amp i * 32767| := truncR_abs_le _
    _ = |rawValue sr freq amp i| * 32767 := by
        rw [abs_mul]; norm_num
    _ ≤ (amp : ℝ) * 32767 := by
        have := abs_rawValue_le sr freq amp i h
        nlinarith [abs_nonneg (rawValue sr freq amp i)]

lemma sample_in_range (sr freq : ℕ) (amp : ℚ) (i : ℕ) (h0 : 0 ≤ amp)
    (h1 : amp ≤ 1) :
    -32768 ≤ sample sr freq amp i ∧ sample sr freq amp i ≤ 32767 := by
  have habs := abs_sample_le sr freq amp i h0
  have hamp : (amp : ℝ) ≤ 1 := by exact_mod_cast h1
  have hb : |(sample sr freq amp i : ℝ)| ≤ 32767 := by nlinarith
  rw [abs_le] at hb
  constructor
  · have hlow : (-32768 : ℝ) ≤ (sample sr freq amp i : ℝ) := by linarith [hb.1]
    exact_mod_cast hlow
  · exact_mod_cast hb.2

lemma packAll_eq_some {vs : List ℤ}
    (h : ∀ v ∈ vs, -32768 ≤ v ∧ v ≤ 32767) :
    ∃ bs, packAll vs = some bs ∧ bs.length = 2 * vs.length := by
  induction vs with
  | nil => exact ⟨[], rfl, rfl⟩
  | cons v vs ih =>
    obtain ⟨bs, hbs, hlen⟩ := ih fun w hw => h w (List.mem_cons_of_mem _ hw)
    have hv := h v (List.mem_cons_self v vs)
    refine ⟨u16le ((v % 65536).toNat) ++ bs, ?_, ?_⟩
    · simp [packAll, packI16, hv.1, hv.2, hbs]
    · simp [u16le, hlen, List.length_cons]; ring

lemma decodeU32_u32le (v : ℕ) (h : v < 4294967296) (rest : List ℕ) :
    decodeU32 (u32le v ++ rest) = v := by
  simp [u32le, decodeU32]
  omega

lemma decodeU16_u16le (v : ℕ) (h : v < 65536) (rest : List ℕ) :
    decodeU16 (u16le v ++ rest) = v := by
  simp [u16le, decodeU16]
  omega

lemma wavHeader_eq_some (sr : ℕ) (ns : ℤ) (h0 : 0 ≤ ns)
    (h1 : 36 + ns * 2 < 4294967296) (h2 : (sr : ℤ) * 2 < 4294967296) :
    wavHeader sr ns =
      some ([82, 73, 70, 70] ++ u32le (36 + ns * 2).toNat ++
            [87, 65, 86, 69] ++ [102, 109, 116, 32] ++ u32le 16 ++
            u16le 1 ++ u16le 1 ++ u32le sr ++ u32le (sr * 2) ++
            u16le 2 ++ u16le 16 ++ [100, 97, 116, 97] ++
            u32le (ns * 2).toNat) := by
  have hsr : (sr : ℤ) < 4294967296 := by omega
  have p1 : packU32 (36 + ns * 2) = some (u32le (36 + ns * 2).toNat) := by
    unfold packU32
    rw [if_pos ⟨by omega, h1⟩]
  have p2 : packU32 16 = some (u32le 16) := rfl
  have p3 : packU16 1 = some (u16le 1) := rfl
  have p5 : packU32 (sr : ℤ) = some (u32le sr) := by
    unfold packU32
    rw [if_pos ⟨by positivity, hsr⟩]
    simp
  have p6 : packU32 ((sr : ℤ) * 2) = some (u32le (sr * 2)) := by
    unfold packU32
    rw [if_pos ⟨by positivity, h2⟩]
    congr 1
  have p7 : packU16 2 = some (u16le 2) := rfl
  have p8 : packU16 16 = some (u16le 16) := rfl
  have p9 : packU32 (ns * 2) = some (u32le (ns * 2).toNat) := by
    unfold packU32
    rw [if_pos ⟨by omega, by omega⟩]
  simp [wavHeader, p1, p2, p3, p5, p6, p7, p8, p9]

lemma header_bytes_length {sr : ℕ} {ns : ℤ} :
    ([82, 73, 70, 70] ++ u32le (36 + ns * 2).toNat ++
     [87, 65, 86, 69] ++ [102, 109, 116, 32] ++ u32le 16 ++
     u16le 1 ++ u16le 1 ++ u32le sr ++ u32le (sr * 2) ++
     u16le 2 ++ u16le 16 ++ [100, 97, 116, 97] ++
     u32le (ns * 2).toNat).length = 44 := by
  simp [u32le, u16le]

lemma numSamplesZ_nonneg {sr : ℕ} {dur : ℚ} (h : 0 ≤ dur) :
    0 ≤ numSamplesZ sr dur := by
  have hq : (0 : ℚ) ≤ (sr : ℚ) * dur := by positivity
  rw [numSamplesZ, truncQ_of_nonneg hq]
  exact Int.floor_nonneg.2 hq

lemma samples_bounded (sr freq : ℕ) (dur amp : ℚ) (h0 : 0 ≤ amp)
    (h1 : amp ≤ 1) :
    ∀ v ∈ samples sr freq dur amp, -32768 ≤ v ∧ v ≤ 32767 := by
  intro v hv
  rw [samples, List.mem_map] at hv
  obtain ⟨i, _, rfl⟩ := hv
  exact sample_in_range sr freq amp i h0 h1

/-- C1: for every valid `AudioParameters` whose header fields fit in their
unsigned 32-bit slots, the first 44 bytes of the produced byte sequence
follow the fixed WAV layout: "RIFF", the little-endian u32
`file_size = 36 + data_size`, "WAVE", "fmt ", u32 16, u16 1 (PCM), u16 1
(mono), u32 sample rate, u32 byte rate `sample_rate * 2`, u16 block align
2, u16 bits-per-sample 16, "data", and u32 `data_size = 2 *` the number of
samples. -/
theorem header_correct (sr freq : ℕ) (dur amp : ℚ)
    (hsr : 0 < sr) (hdur : 0 < dur) (hamp0 : 0 < amp) (hamp1 : amp ≤ 1)
    (hfit : 36 + 2 * numSamples sr dur < 4294967296)
    (hsr32 : sr * 2 < 4294967296) :
    ∃ l, wavData sr freq dur amp = some l ∧
      l.take 4 = [82, 73, 70, 70] ∧
      decodeU32 (l.drop 4) = 36 + 2 * numSamples sr dur ∧
      (l.drop 8).take 4 = [87, 65, 86, 69] ∧
      (l.drop 12).take 4 = [102, 109, 116, 32] ∧
      decodeU32 (l.drop 16) = 16 ∧
      decodeU16 (l.drop 20) = 1 ∧
      decodeU16 (l.drop 22) = 1 ∧
      decodeU32 (l.drop 24) = sr ∧
      decodeU32 (l.drop 28) = sr * 2 ∧
      decodeU16 (l.drop 32) = 2 ∧
      decodeU16 (l.drop 34) = 16 ∧
      (l.drop 36).take 4 = [100, 97, 116, 97] ∧
      decodeU32 (l.drop 40) = 2 * numSamples sr dur := by
  have h0 : 0 ≤ numSamplesZ sr dur := numSamplesZ_nonneg hdur.le
  have hfit' : 36 + 2 * (numSamplesZ sr dur).toNat < 4294967296 := hfit
  have h1 : 36 + numSamplesZ sr dur * 2 < 4294967296 := by omega
  have h2 : (sr : ℤ) * 2 < 4294967296 := by omega
  obtain ⟨S, hS, hSlen⟩ :=
    packAll_eq_some (samples_bounded sr freq dur amp hamp0.le hamp1)
  have hwav : wavData sr freq dur amp =
      some (([82, 73, 70, 70] ++ u32le (36 + numSamplesZ sr dur * 2).toNat ++
             [87, 65, 86, 69] ++ [102, 109, 116, 32] ++ u32le 16 ++
             u16le 1 ++ u16le 1 ++ u32le sr ++ u32le (sr * 2) ++
             u16le 2 ++ u16le 16 ++ [100, 97, 116, 97] ++
             u32le (numSamplesZ sr dur * 2).toNat) ++ S) := by
    unfold wavData
    rw [wavHeader_eq_some sr (numSamplesZ sr dur) h0 h1 h2, hS]
    rfl
  refine ⟨_, hwav, ?_, ?_, ?_, ?_, ?_, ?_, ?_, ?_, ?_, ?_, ?_, ?_, ?_⟩ <;>
    simp only [u32le, u16le, List.cons_append, List.nil_append,
      List.append_assoc] <;>
    simp [List.take, List.drop, decodeU32, decodeU16, numSamples] <;>
    omega

lemma numSamplesZ_at_48k : numSamplesZ 48000 1 = 48000 := by
  norm_num [numSamplesZ, truncQ]

lemma numSamples_at_48k : numSamples 48000 1 = 48000 := by
  rw [numSamples, numSamplesZ_at_48k]
  rfl

/-- Witness for `header_correct` at the compiled-in parameters. -/
theorem header_correct_witness :
    ((0 < 48000 ∧ (0 : ℚ) < 1 ∧ (0 : ℚ) < 3 / 10 ∧ (3 / 10 : ℚ) ≤ 1) ∧
      36 + 2 * numSamples 48000 1 < 4294967296 ∧
      48000 * 2 < 4294967296) ∧
    ∃ l, wavData 48000 440 1 (3 / 10) = some l ∧
      l.take 4 = [82, 73, 70, 70] ∧
      decodeU32 (l.drop 4) = 36 + 2 * numSamples 48000 1 ∧
      (l.drop 8).take 4 = [87, 65, 86, 69] ∧
      (l.drop 12).take 4 = [102, 109, 116, 32] ∧
      decodeU32 (l.drop 16) = 16 ∧
      decodeU16 (l.drop 20) = 1 ∧
      decodeU16 (l.drop 22) = 1 ∧
      decodeU32 (l.drop 24) = 48000 ∧
      decodeU32 (l.drop 28) = 48000 * 2 ∧
      decodeU16 (l.drop 32) = 2 ∧
      decodeU16 (l.drop 34) = 16 ∧
      (l.drop 36).take 4 = [100, 97, 116, 97] ∧
      decodeU32 (l.drop 40) = 2 * numSamples 48000 1 := by
  refine ⟨⟨⟨by norm_num, by norm_num, by norm_num, by norm_num⟩, ?_,
    by norm_num⟩, ?_⟩
  · rw [numSamples_at_48k]; norm_num
  · exact header_correct 48000 440 1 (3 / 10) (by norm_num) (by norm_num)
      (by norm_num) (by norm_num)
      (by rw [numSamples_at_48k]; norm_num) (by norm_num)

/-- C2: with the compiled-in parameters `sample_rate = 48000`,
`duration = 1.0`, `frequency = 440`, `amplitude = 0.3`, the program
produces exactly `44 + 48000 * 2 = 96044` bytes, in which bytes 24-27
decode (little-endian) to 48000 and bytes 34-35 decode to 16. -/
theorem concrete_scenario :
    ∃ l, create_48k_test_audio = some l ∧ l.length = 96044 ∧
      decodeU32 (l.drop 24) = 48000 ∧ decodeU16 (l.drop 34) = 16 := by
  have h0 : (0 : ℤ) ≤ numSamplesZ 48000 1 := by rw [numSamplesZ_at_48k]; norm_num
  have h1 : 36 + numSamplesZ 48000 1 * 2 < 4294967296 := by
    rw [numSamplesZ_at_48k]; norm_num
  have h2 : ((48000 : ℕ) : ℤ) * 2 < 4294967296 := by norm_num
  obtain ⟨S, hS, hSlen⟩ :=
    packAll_eq_some (samples_bounded 48000 440 1 (3 / 10) (by norm_num)
      (by norm_num))
  have hslen : (samples 48000 440 1 (3 / 10)).length = 48000 := by
    simp [samples, numSamples_at_48k]
  have hwav : create_48k_test_audio =
      some (([82, 73, 70, 70] ++
             u32le (36 + numSamplesZ 48000 1 * 2).toNat ++
             [87, 65, 86, 69] ++ [102, 109, 116, 32] ++ u32le 16 ++
             u16le 1 ++ u16le 1 ++ u32le 48000 ++ u32le (48000 * 2) ++
             u16le 2 ++ u16le 16 ++ [100, 97, 116, 97] ++
             u32le (numSamplesZ 48000 1 * 2).toNat) ++ S) := by
    unfold create_48k_test_audio sample_rate frequency duration amplitude
      wavData
    rw [wavHeader_eq_some 48000 (numSamplesZ 48000 1) h0 h1 h2, hS]
    rfl
  refine ⟨_, hwav, ?_, ?_, ?_⟩
  · rw [List.length_append, header_bytes_length, hSlen, hslen]
  · rw [numSamplesZ_at_48k]
    simp only [u32le, u16le, List.cons_append, List.nil_append,
      List.append_assoc]
    norm_num [List.drop, decodeU32]
  · rw [numSamplesZ_at_48k]
    simp only [u32le, u16le, List.cons_append, List.nil_append,
      List.append_assoc]
    norm_num [List.drop, decodeU16]

/-- C10: the program is deterministic: runs in any two environments
produce the same output, namely the fixed byte sequence
`create_48k_test_audio` determined by the compiled-in parameters alone. -/
theorem run_deterministic (α β : Type) (e₁ : α) (e₂ : β) :
    runProgram e₁ = runProgram e₂ ∧ runProgram e₁ = create_48k_test_audio :=
  ⟨rfl, rfl⟩

/-- C3 counterexample: at `sample_rate = 3`, `duration = 0.5` the script
generates `int(3 * 0.5) = 1` sample, but `round(3 * 0.5) = 2`. -/
theorem sample_count_not_round :
    ¬ (((samples 3 440 (1 / 2) (3 / 10)).length : ℤ) =
        round (((3 : ℕ) : ℚ) * (1 / 2))) := by
  have hz : numSamplesZ 3 (1 / 2) = 1 := by
    norm_num [numSamplesZ, truncQ, Int.floor_eq_iff]
  have hlen : (samples 3 440 (1 / 2) (3 / 10)).length = 1 := by
    rw [samples, List.length_map, List.length_range, numSamples, hz]
    rfl
  rw [hlen]
  norm_num [round_eq, Int.floor_eq_iff]

/-- C3 amended: for positive `sample_rate` and `duration` the length of
the generated sample list is `int(sample_rate * duration)`, the product
truncated toward zero, i.e. its floor — not its rounding. -/
theorem sample_count (sr freq : ℕ) (dur amp : ℚ) (hsr : 0 < sr)
    (hdur : 0 < dur) :
    ((samples sr freq dur amp).length : ℤ) = ⌊(sr : ℚ) * dur⌋ := by
  have hq : (0 : ℚ) ≤ (sr : ℚ) * dur := by positivity
  have h0 : 0 ≤ numSamplesZ sr dur := numSamplesZ_nonneg hdur.le
  have hlen : (samples sr freq dur amp).length = (numSamplesZ sr dur).toNat := by
    simp [samples, numSamples]
  rw [hlen, Int.toNat_of_nonneg h0, numSamplesZ, truncQ_of_nonneg hq]

/-- Witness for `sample_count` at the compiled-in parameters. -/
theorem sample_count_witness :
    ((0 < 48000 ∧ (0 : ℚ) < 1) ∧
      ((samples 48000 440 1 (3 / 10)).length : ℤ) =
        ⌊((48000 : ℕ) : ℚ) * 1⌋) :=
  ⟨⟨by norm_num, by norm_num⟩,
    sample_count 48000 440 1 (3 / 10) (by norm_num) (by norm_num)⟩

/-- C5: for a nonnegative amplitude every emitted sample lies within
`[-round(amplitude * 32767), round(amplitude * 32767)]`; at the script's
amplitude 0.3 the bound is 9830, see the witness. -/
theorem amplitude_bound (sr freq : ℕ) (amp : ℚ) (i : ℕ) (h0 : 0 ≤ amp) :
    -round (amp * 32767) ≤ sample sr freq amp i ∧
      sample sr freq amp i ≤ round (amp * 32767) := by
  have habs := abs_sample_le sr freq amp i h0
  rw [abs_le] at habs
  have hup : (sample sr freq amp i : ℚ) ≤ amp * 32767 := by
    have h := habs.2
    have : ((sample sr freq amp i : ℚ) : ℝ) ≤ ((amp * 32767 : ℚ) : ℝ) := by
      push_cast
      exact_mod_cast h
    exact_mod_cast this
  have hlow : -(amp * 32767) ≤ (sample sr freq amp i : ℚ) := by
    have h := habs.1
    have : ((-(amp * 32767) : ℚ) : ℝ) ≤ ((sample sr freq amp i : ℚ) : ℝ) := by
      push_cast
      exact_mod_cast h
    exact_mod_cast this
  have hfloor : sample sr freq amp i ≤ ⌊amp * 32767⌋ := Int.le_floor.2 hup
  have hceil : ⌈-(amp * 32767)⌉ ≤ sample sr freq amp i :=
    Int.ceil_le.2 (by exact_mod_cast hlow)
  have hcn : ⌈-(amp * 32767)⌉ = -⌊amp * 32767⌋ := Int.ceil_neg
  have hfr : ⌊amp * 32767⌋ ≤ round (amp * 32767) := by
    rw [round_eq]
    exact Int.floor_le_floor (by linarith)
  omega

/-- Witness for `amplitude_bound`: at amplitude 0.3 the bound
`round(0.3 * 32767)` is 9830, so sample 0 lies within `[-9830, 9830]`. -/
theorem amplitude_bound_witness :
    (0 : ℚ) ≤ 3 / 10 ∧
      -9830 ≤ sample 48000 440 (3 / 10) 0 ∧
        sample 48000 440 (3 / 10) 0 ≤ 9830 := by
  have h := amplitude_bound 48000 440 (3 / 10) 0 (by norm_num)
  have hr : round ((3 / 10 : ℚ) * 32767) = 9830 := by
    norm_num [round_eq, Int.floor_eq_iff]
  rw [hr] at h
  exact ⟨by norm_num, h.1, h.2⟩

/-- C8: for an amplitude in `[0, 1]` every generated sample fits a signed
16-bit integer, so `struct.pack('<h', sample)` never raises. -/
theorem sample_fits_int16 (sr freq : ℕ) (amp : ℚ) (i : ℕ)
    (h0 : 0 ≤ amp) (h1 : amp ≤ 1) :
    (-32768 ≤ sample sr freq amp i ∧ sample sr freq amp i ≤ 32767) ∧
      (packI16 (sample sr freq amp i)).isSome = true := by
  have h := sample_in_range sr freq amp i h0 h1
  refine ⟨h, ?_⟩
  simp [packI16, h.1, h.2]

/-- Witness for `sample_fits_int16` at the compiled-in parameters. -/
theorem sample_fits_int16_witness :
    ((0 : ℚ) ≤ 3 / 10 ∧ (3 / 10 : ℚ) ≤ 1) ∧
      (-32768 ≤ sample 48000 440 (3 / 10) 7 ∧
        sample 48000 440 (3 / 10) 7 ≤ 32767) ∧
      (packI16 (sample 48000 440 (3 / 10) 7)).isSome = true :=
  ⟨⟨by norm_num, by norm_num⟩,
    sample_fits_int16 48000 440 (3 / 10) 7 (by norm_num) (by norm_num)⟩

/-- C9: when `sample_rate = frequency * p` with `p` the integer period
`sr / f`, and both `i` and `i + p` are in range, the generated samples
repeat exactly with period `p` (hence certainly within quantization
tolerance). -/
theorem tone_periodic (sr freq p : ℕ) (dur amp : ℚ) (i : ℕ)
    (hf : 0 < freq) (hp : 0 < p) (hsr : sr = freq * p)
    (_hrange : i + p < numSamples sr dur) :
    sample sr freq amp (i + p) = sample sr freq amp i := by
  have hfR : ((freq : ℕ) : ℝ) ≠ 0 := Nat.cast_ne_zero.2 hf.ne'
  have hpR : ((p : ℕ) : ℝ) ≠ 0 := Nat.cast_ne_zero.2 hp.ne'
  have hsrR : ((sr : ℕ) : ℝ) = (freq : ℝ) * (p : ℝ) := by
    rw [hsr]
    push_cast
    ring
  have key : 2 * Real.pi * (freq : ℝ) * sampleTime sr (i + p) =
      2 * Real.pi * (freq : ℝ) * sampleTime sr i + 2 * Real.pi := by
    rw [sampleTime, sampleTime, hsrR]
    push_cast
    field_simp
    ring
  rw [sample, sample, rawValue, rawValue, key, Real.sin_add_two_pi]

/-- Witness for `tone_periodic`: a 480 Hz tone at 48 kHz has period 100,
and sample 100 equals sample 0. -/
theorem tone_periodic_witness :
    (0 < 480 ∧ 0 < 100 ∧ 48000 = 480 * 100 ∧
      0 + 100 < numSamples 48000 1) ∧
      sample 48000 480 (3 / 10) (0 + 100) = sample 48000 480 (3 / 10) 0 := by
  have hr : (0 : ℕ) + 100 < numSamples 48000 1 := by
    rw [numSamples_at_48k]
    norm_num
  exact ⟨⟨by norm_num, by norm_num, by norm_num, hr⟩,
    tone_periodic 48000 480 100 1 (3 / 10) 0 (by norm_num) (by norm_num)
      (by norm_num) hr⟩

/-- C6 counterexample: with `sample_rate = 0` the script does not fail at
all — there is no parameter validation — it succeeds and produces a
byte sequence (a 44-byte header-only file). -/
theorem zero_rate_no_failure :
    (wavData 0 440 1 (3 / 10)).isSome = true := by
  have hz : numSamplesZ 0 1 = 0 := by norm_num [numSamplesZ, truncQ]
  have hsamp : samples 0 440 1 (3 / 10) = [] := by
    rw [samples, numSamples, hz]
    rfl
  have hh := wavHeader_eq_some 0 (numSamplesZ 0 1)
    (by rw [hz]) (by rw [hz]; norm_num) (by norm_num)
  rw [wavData, hh, hsamp]
  rfl

/-- C6 amended: the script contains no parameter validation and no
InvalidParameter error. With `sample_rate = 0` it succeeds, producing
exactly the 44 header bytes (an empty data chunk); with `duration = -1`
it does fail, but inside serialization — `struct.pack('<I', data_size)`
raises on the negative `data_size = -96000` — not through any parameter
check. -/
theorem no_parameter_check :
    (∃ l, wavData 0 440 1 (3 / 10) = some l ∧ l.length = 44) ∧
      wavData 48000 440 (-1) (3 / 10) = none := by
  constructor
  · have hz : numSamplesZ 0 1 = 0 := by norm_num [numSamplesZ, truncQ]
    have hsamp : samples 0 440 1 (3 / 10) = [] := by
      rw [samples, numSamples, hz]
      rfl
    have hh := wavHeader_eq_some 0 (numSamplesZ 0 1)
      (by rw [hz]) (by rw [hz]; norm_num) (by norm_num)
    have hwav : wavData 0 440 1 (3 / 10) =
        some (([82, 73, 70, 70] ++ u32le (36 + numSamplesZ 0 1 * 2).toNat ++
          [87, 65, 86, 69] ++ [102, 109, 116, 32] ++ u32le 16 ++ u16le 1 ++
          u16le 1 ++ u32le 0 ++ u32le (0 * 2) ++ u16le 2 ++ u16le 16 ++
          [100, 97, 116, 97] ++ u32le (numSamplesZ 0 1 * 2).toNat) ++ []) := by
      rw [wavData, hh, hsamp]
      rfl
    refine ⟨_, hwav, ?_⟩
    rw [List.length_append, header_bytes_length]
    rfl
  · have hz : numSamplesZ 48000 (-1) = -48000 := by
      norm_num [numSamplesZ, truncQ, Int.ceil_eq_iff]
    have hnone : packU32 (36 + numSamplesZ 48000 (-1) * 2) = none := by
      rw [hz, packU32, if_neg]
      norm_num
    rw [wavData, wavHeader, hnone]
    rfl

/-- C7 counterexample: in a filesystem state where the parent directory
`debug-audio/` does not exist but could be created and the path is
writable, the claim predicts a successful write, yet the script — which
never creates directories — fails to open the file. -/
theorem write_no_mkdir :
    writeSucceeds ⟨false, true, true⟩ = false ∧
      claimedWriteSucceeds ⟨false, true, true⟩ = true :=
  ⟨rfl, rfl⟩

/-- C7 amended: the script never creates parent directories: the final
write succeeds exactly when the parent directory already exists and the
path is writable, and every state in which the script's write succeeds is
also one the claimed behaviour accepts (but not conversely). -/
theorem write_requires_existing_parent (fs : FileSystem) :
    (writeSucceeds fs = true ↔
      fs.parentExists = true ∧ fs.pathWritable = true) ∧
      (writeSucceeds fs && claimedWriteSucceeds fs) = writeSucceeds fs := by
  obtain ⟨pe, pc, pw⟩ := fs
  cases pe <;> cases pc <;> cases pw <;>
    simp [writeSucceeds, claimedWriteSucceeds]

/-- C4 counterexample: at sample index 1 the script computes
`0.3 * sin(2π * 440 / 48000) * 32767 ≈ 565.86` and emits
`int(565.86) = 565`, while rounding would give 566: quantization is not
performed by rounding. -/
theorem quantize_not_round :
    sample 48000 440 (3 / 10) 1 ≠
      round (rawValue 48000 440 (3 / 10) 1 * 32767) := by
  have hang : 2 * Real.pi * ((440 : ℕ) : ℝ) * sampleTime 48000 1 =
      11 * Real.pi / 600 := by
    rw [sampleTime]
    push_cast
    ring
  set x : ℝ := 11 * Real.pi / 600 with hxdef
  have hx1 : (0.0575958 : ℝ) < x := by
    rw [hxdef]
    nlinarith [Real.pi_gt_d6]
  have hx2 : x < 0.0575959 := by
    rw [hxdef]
    nlinarith [Real.pi_lt_d6]
  have hx0 : (0 : ℝ) < x := lt_trans (by norm_num) hx1
  have hxabs : |x| ≤ 1 := by
    rw [abs_of_pos hx0]
    linarith
  have hsb := Real.sin_bound hxabs
  rw [abs_of_pos hx0, abs_le] at hsb
  obtain ⟨hsbl, hsbu⟩ := hsb
  have hx3u : x ^ 3 ≤ (0.0575959 : ℝ) ^ 3 := pow_le_pow_left₀ hx0.le hx2.le 3
  have hx3l : (0.0575958 : ℝ) ^ 3 ≤ x ^ 3 :=
    pow_le_pow_left₀ (by norm_num) hx1.le 3
  have hx4u : x ^ 4 ≤ (0.0575959 : ℝ) ^ 4 := pow_le_pow_left₀ hx0.le hx2.le 4
  have c1 : (0.0575959 : ℝ) ^ 3 < 0.000191063 := by norm_num
  have c2 : (0.0575959 : ℝ) ^ 4 < 0.0000110044 := by norm_num
  have c3 : (0.000191061 : ℝ) < (0.0575958 : ℝ) ^ 3 := by norm_num
  have hs_low : (0.0575633 : ℝ) < Real.sin x := by
    nlinarith [hsbl, hx1, hx3u, hx4u, c1, c2]
  have hs_high : Real.sin x < (0.057565 : ℝ) := by
    nlinarith [hsbu, hx2, hx3l, hx4u, c3, c2]
  have hraw : rawValue 48000 440 (3 / 10) 1 * 32767 =
      (3 / 10 : ℝ) * Real.sin x * 32767 := by
    rw [rawValue, hang]
    push_cast
    ring
  have hv1 : (565.5 : ℝ) < rawValue 48000 440 (3 / 10) 1 * 32767 := by
    rw [hraw]
    nlinarith [hs_low]
  have hv2 : rawValue 48000 440 (3 / 10) 1 * 32767 < 566 := by
    rw [hraw]
    nlinarith [hs_high]
  have hfloor : sample 48000 440 (3 / 10) 1 = 565 := by
    rw [sample, truncR_of_nonneg (by linarith)]
    refine Int.floor_eq_iff.2 ⟨?_, ?_⟩
    · push_cast
      linarith
    · push_cast
      linarith
  have hround : round (rawValue 48000 440 (3 / 10) 1 * 32767) = 566 := by
    rw [round_eq]
    refine Int.floor_eq_iff.2 ⟨?_, ?_⟩
    · push_cast
      linarith
    · push_cast
      linarith
  rw [hfloor, hround]
  norm_num

/-- C4 amended: quantization is performed by the `int()` cast, i.e.
truncation toward zero, not rounding: each emitted sample is the
truncation of `amplitude * sin(2π * frequency * (i / sample_rate)) *
32767`, and so lies within distance 1 of that raw scaled value (rounding
would guarantee distance 1/2, which fails at index 1). -/
theorem quantize_truncates (sr freq : ℕ) (amp : ℚ) (i : ℕ) :
    sample sr freq amp i = truncR (rawValue sr freq amp i * 32767) ∧
      |(sample sr freq amp i : ℝ) - rawValue sr freq amp i * 32767| < 1 :=
  ⟨rfl, truncR_sub_abs_lt _⟩

end CreateAudio
